import Mathlib

/-!
Shallow embedding of the `JsonDB` class: a single-file JSON document store
with optional password protection (PBKDF2 key derivation + AES-256-GCM
authenticated encryption), offering `insert` / `find` / `update` / `delete`
and a `changePassword` rotation operation.

Modelling conventions:
* JSON values are the inductive `JVal` (arrays and objects via the mutual
  types `JArr`/`JObj`).  A document is an association list of fields
  (`Doc`), a store is a list of documents (`Store`), mirroring the JS
  objects and the top-level array held in the db file.
* JavaScript strict equality `===`, as it occurs in `find`/`update`/`delete`
  (`doc[key] === query[key]`, `doc.id === id`), is `jsEq`: structural on
  primitives.  On objects/arrays `===` is reference equality, and the
  compared values always come from distinct allocations (`_readDB` parses a
  fresh copy on every call, so a caller-supplied query value is never the
  same reference as a parsed document field); hence `jsEq` is `false` on
  non-primitive values.
* The node `crypto` primitives (external to this repository) are idealised:
  PBKDF2 is an injective map to a symbolic key record `GKey`;
  AES-256-GCM ciphertexts and auth tags are the symbolic terms
  `GCt.enc key iv plaintext` / `GTag.mk key iv plaintext`, and GCM
  decryption succeeds exactly on a genuine (key, iv, tag, ciphertext)
  quadruple, failing closed otherwise (the AEAD guarantee).  The plaintext
  slot holds the `JVal` whose `JSON.stringify(·, null, 2)` rendering is the
  actual encrypted text; `JSON.parse` of that rendering returns the value
  itself, so serialisation stays implicit except for its colon structure
  (`colonCount`), which the envelope parser's splitting can observe.
* File contents are the four shapes `_readDB` distinguishes: a valid JSON
  text (`plain v`), a well-formed envelope `salt:iv:authTag:ciphertext`
  (`env`), a colon-free non-JSON text (`garbageNoColon`), and a non-JSON
  text `salt:rest` whose remainder splits into `parts ≠ 3` (or junk `= 3`)
  colon-separated components (`badEnv`).
* `Date.now()` and `randomBytes` are inputs (`now`, `salt`, `iv`)
  threaded explicitly.
-/

namespace JsonDB

mutual

/-- JSON values, as produced by `JSON.parse` and consumed by
`JSON.stringify`. -/
inductive JVal where
  | null : JVal
  | bool (b : Bool) : JVal
  | num (n : Int) : JVal
  | str (s : String) : JVal
  | arr (items : JArr) : JVal
  | obj (fields : JObj) : JVal

/-- A JSON array (list of JSON values). -/
inductive JArr where
  | nil : JArr
  | cons (v : JVal) (rest : JArr) : JArr

/-- A JSON object (ordered fields, name to value). -/
inductive JObj where
  | nil : JObj
  | cons (k : String) (v : JVal) (rest : JObj) : JObj

end

mutual

/-- Boolean structural equality on JSON values. -/
def JVal.beq : JVal → JVal → Bool
  | .null, .null => true
  | .bool a, .bool b => a == b
  | .num a, .num b => a == b
  | .str a, .str b => a == b
  | .arr a, .arr b => JArr.beq a b
  | .obj a, .obj b => JObj.beq a b
  | _, _ => false

/-- Boolean structural equality on JSON arrays. -/
def JArr.beq : JArr → JArr → Bool
  | .nil, .nil => true
  | .cons v r, .cons w s => JVal.beq v w && JArr.beq r s
  | _, _ => false

/-- Boolean structural equality on JSON objects. -/
def JObj.beq : JObj → JObj → Bool
  | .nil, .nil => true
  | .cons k v r, .cons l w s => k == l && JVal.beq v w && JObj.beq r s
  | _, _ => false

end

mutual

theorem jval_eq_of_beq : ∀ a b : JVal, JVal.beq a b = true → a = b
  | .null, b, h => by cases b <;> first | rfl | exact absurd h (by simp [JVal.beq])
  | .bool a, b, h => by cases b <;> simp_all [JVal.beq]
  | .num a, b, h => by cases b <;> simp_all [JVal.beq]
  | .str a, b, h => by cases b <;> simp_all [JVal.beq]
  | .arr a, b, h => by
      cases b <;> simp_all [JVal.beq]
      exact jarr_eq_of_beq _ _ h
  | .obj a, b, h => by
      cases b <;> simp_all [JVal.beq]
      exact jobj_eq_of_beq _ _ h

theorem jarr_eq_of_beq : ∀ a b : JArr, JArr.beq a b = true → a = b
  | .nil, b, h => by cases b <;> first | rfl | exact absurd h (by simp [JArr.beq])
  | .cons v r, b, h => by
      cases b with
      | nil => exact absurd h (by simp [JArr.beq])
      | cons w s =>
          simp only [JArr.beq, Bool.and_eq_true] at h
          rw [jval_eq_of_beq v w h.1, jarr_eq_of_beq r s h.2]

theorem jobj_eq_of_beq : ∀ a b : JObj, JObj.beq a b = true → a = b
  | .nil, b, h => by cases b <;> first | rfl | exact absurd h (by simp [JObj.beq])
  | .cons k v r, b, h => by
      cases b with
      | nil => exact absurd h (by simp [JObj.beq])
      | cons l w s =>
          simp only [JObj.beq, Bool.and_eq_true] at h
          obtain ⟨⟨h1, h2⟩, h3⟩ := h
          rw [eq_of_beq h1, jval_eq_of_beq v w h2, jobj_eq_of_beq r s h3]

end

mutual

theorem jval_beq_refl : ∀ a : JVal, JVal.beq a a = true
  | .null => rfl
  | .bool a => by simp [JVal.beq]
  | .num a => by simp [JVal.beq]
  | .str a => by simp [JVal.beq]
  | .arr a => by simpa [JVal.beq] using jarr_beq_refl a
  | .obj a => by simpa [JVal.beq] using jobj_beq_refl a

theorem jarr_beq_refl : ∀ a : JArr, JArr.beq a a = true
  | .nil => rfl
  | .cons v r => by simp [JArr.beq, jval_beq_refl v, jarr_beq_refl r]

theorem jobj_beq_refl : ∀ a : JObj, JObj.beq a a = true
  | .nil => rfl
  | .cons k v r => by simp [JObj.beq, jval_beq_refl v, jobj_beq_refl r]

end

instance : DecidableEq JVal := fun a b =>
  decidable_of_iff (JVal.beq a b = true)
    ⟨jval_eq_of_beq a b, fun h => h ▸ jval_beq_refl a⟩

instance : DecidableEq JArr := fun a b =>
  decidable_of_iff (JArr.beq a b = true)
    ⟨jarr_eq_of_beq a b, fun h => h ▸ jarr_beq_refl a⟩

instance : DecidableEq JObj := fun a b =>
  decidable_of_iff (JObj.beq a b = true)
    ⟨jobj_eq_of_beq a b, fun h => h ▸ jobj_beq_refl a⟩

/-- A document: a JS object, i.e. an ordered association list of fields.
JS objects have pairwise-distinct keys; all operations below preserve that. -/
abbrev Doc := List (String × JVal)

/-- The store: the top-level JSON array of documents held in the db file. -/
abbrev Store := List Doc

/-- JavaScript strict equality `===` between a parsed document field and a
caller-supplied value: structural on primitives; `false` on arrays/objects
because those are compared by reference and the two sides are always
distinct allocations (see module docstring). -/
def jsEq : JVal → JVal → Bool
  | .null, .null => true
  | .bool a, .bool b => a == b
  | .num a, .num b => a == b
  | .str a, .str b => a == b
  | _, _ => false

/-- JS property read `doc[k]`: the value at key `k`, `undefined` (`none`)
when absent.  First occurrence, matching JS objects' unique keys. -/
def lookupField : Doc → String → Option JVal
  | [], _ => none
  | (k2, v) :: rest, k => if k2 = k then some v else lookupField rest k

/-- Whether `doc` has key `k`. -/
def hasKey (d : Doc) (k : String) : Bool := (lookupField d k).isSome

/-- JS property write `doc[k] = v`: overwrites in place when the key is
present, appends otherwise. -/
def setField : Doc → String → JVal → Doc
  | [], k, v => [(k, v)]
  | (k2, w) :: rest, k, v =>
      if k2 = k then (k, v) :: rest else (k2, w) :: setField rest k v

/-- JS object spread `{...d, ...u}` (line 131): `d`'s fields in order, each
overwritten by `u`'s value when `u` has the same key, followed by `u`'s
fields whose keys are new. -/
def mergeDoc (d u : Doc) : Doc :=
  d.map (fun kv => (kv.1, (lookupField u kv.1).getD kv.2))
    ++ u.filter (fun kv => !(hasKey d kv.1))

/-- The `id` field of a document (`doc.id`). -/
def docId (d : Doc) : Option JVal := lookupField d "id"

/-- The test `doc.id === i` used by `update` and `delete`. -/
def hasId (d : Doc) (i : Int) : Bool :=
  match docId d with
  | some v => jsEq v (.num i)
  | none => false

/-- One conjunct of `find`'s predicate: `doc[key] === query[key]`. -/
def fieldMatch (d : Doc) (k : String) (x : JVal) : Bool :=
  match lookupField d k with
  | some w => jsEq w x
  | none => false

/-- The `find` predicate (line 124):
`Object.keys(query).every((key) => doc[key] === query[key])`. -/
def matchesQuery (q d : Doc) : Bool :=
  q.all (fun kv => fieldMatch d kv.1 kv.2)

/-- `find(query)` on the decoded store (lines 121-126): `db.filter(...)`. -/
def findDocs (q : Doc) (db : Store) : Store := db.filter (matchesQuery q)

/-- `insert(document)` on the decoded store (lines 112-118), with the
`Date.now()` reading passed in as `now`: sets `document.id`, appends, and
returns the stored document. -/
def insertDoc (d : Doc) (now : Int) (db : Store) : Store × Doc :=
  let d2 := setField d "id" (JVal.num now)
  (db ++ [d2], d2)

/-- A sequence of `insert` calls, each with its document and its
`Date.now()` reading; returns the final store. -/
def insertMany (calls : List (Doc × Int)) (db : Store) : Store :=
  calls.foldl (fun acc c => (insertDoc c.1 c.2 acc).1) db

/-- `update(id, updates)`, store part (line 131):
`db.map((doc) => (doc.id === id ? { ...doc, ...updates } : doc))`. -/
def updateDocs (i : Int) (u : Doc) (db : Store) : Store :=
  db.map (fun d => if hasId d i then mergeDoc d u else d)

/-- `update(id, updates)`, return value (line 133): the first document of
the rewritten store whose `id` strictly equals `i`, `undefined` otherwise. -/
def updateRet (i : Int) (u : Doc) (db : Store) : Option Doc :=
  (updateDocs i u db).find? (fun d => hasId d i)

/-- `delete(id)`, store part (line 139): `db.filter((doc) => doc.id !== id)`. -/
def deleteDocs (i : Int) (db : Store) : Store :=
  db.filter (fun d => !(hasId d i))

/-- `delete(id)`, return value (line 141): `db.length !== newDB.length`. -/
def deleteRet (i : Int) (db : Store) : Bool :=
  decide (db.length ≠ (deleteDocs i db).length)

/-- A derived symmetric key.  `pbkdf2Sync(password, salt, iterations, 32,
digest)` is deterministic and (idealised) injective in its inputs, so the
key is modelled as the record of the inputs that produced it. -/
structure GKey where
  password : String
  salt : String
  iterations : Nat
  digest : String
deriving DecidableEq

/-- A GCM auth-tag component of an envelope.  `mk key iv v` is the genuine
tag produced when encrypting the serialisation of `v` under `key` and `iv`;
`junk n` is any other byte string (e.g. a tampered tag). -/
inductive GTag where
  | mk (key : GKey) (iv : Nat) (plaintext : JVal) : GTag
  | junk (n : Nat) : GTag
deriving DecidableEq

/-- A GCM ciphertext component of an envelope.  `enc key iv v` is the
genuine ciphertext of the serialisation of `v` under `key` and `iv`;
`junk n` is any other byte string (e.g. a tampered ciphertext). -/
inductive GCt where
  | enc (key : GKey) (iv : Nat) (plaintext : JVal) : GCt
  | junk (n : Nat) : GCt
deriving DecidableEq

/-- Error kinds used by the spec's taxonomy for the generic `Error`s the
code throws: `format` for envelope-shape / JSON-parse failures, `auth` for
authenticated-decryption failures (wrong password or tampered data). -/
inductive DBErr where
  | format : DBErr
  | auth : DBErr
deriving DecidableEq

/-- The db file's content, in the four shapes `_readDB`'s parsing
distinguishes.  `plain v` is a text that is the JSON serialisation of `v`;
`env salt iv tag ct` is a well-formed four-component envelope
`salt:iv:authTag:ciphertext`; `garbageNoColon` is a colon-free text that is
not valid JSON; `badEnv salt parts` is a non-JSON text `salt:rest` whose
remainder `rest` splits into `parts` colon-separated components that are
not a genuine envelope. -/
inductive FileContent where
  | plain (v : JVal) : FileContent
  | env (salt : String) (iv : Nat) (tag : GTag) (ct : GCt) : FileContent
  | garbageNoColon : FileContent
  | badEnv (salt : String) (parts : Nat) : FileContent
deriving DecidableEq

/-- The instance configuration fixed by the constructor: `this.password`
(`null` when absent), `this.iterations`, `this.digest`.  `this.algorithm`
is not modelled: the cipher is fixed to the default AEAD
(`"aes-256-gcm"`). -/
structure Config where
  password : Option String
  iterations : Nat
  digest : String
deriving DecidableEq

/-- JS truthiness of `this.password` as used by `if (this.password)`:
`null`/`undefined` and the empty string are falsy. -/
def truthy : Option String → Option String
  | none => none
  | some s => if s = "" then none else some s

/-- `_deriveKey` (lines 43-45): PBKDF2 key derivation, idealised as the
injective packaging of its inputs. -/
def deriveKey (password salt : String) (iterations : Nat) (digest : String) : GKey :=
  ⟨password, salt, iterations, digest⟩

/-- `_encryptWithKey` (lines 49-62) with the fresh random `iv` passed in:
produces the `authTag` and `ciphertext` components of the envelope. -/
def encryptWithKey (v : JVal) (key : GKey) (iv : Nat) : GTag × GCt :=
  (GTag.mk key iv v, GCt.enc key iv v)

/-- `_decryptWithKey` (lines 66-79) on a well-formed three-component
remainder `iv:authTag:ciphertext`: GCM decryption succeeds exactly on the
genuine (key, iv, tag, ciphertext) quadruple, yielding the plaintext whose
`JSON.parse` is the stored value; any other combination fails closed with
an authentication error (the AEAD guarantee). -/
def decryptWithKey (iv : Nat) (tag : GTag) (ct : GCt) (key : GKey) :
    Except DBErr JVal :=
  match ct with
  | .enc k i v =>
      if k = key ∧ i = iv ∧ tag = GTag.mk k i v then .ok v else .error .auth
  | .junk _ => .error .auth

/-- Number of `':'` characters in a string. -/
def strColons (s : String) : Nat := (s.data.filter (fun c => c == ':')).length

mutual

/-- Number of `':'` characters in `JSON.stringify(v, null, 2)`: one per
object entry, plus any colons occurring verbatim inside string literals
(keys and string values); `stringify` never escapes `':'` and introduces no
other colons. -/
def colonCount : JVal → Nat
  | .null => 0
  | .bool _ => 0
  | .num _ => 0
  | .str s => strColons s
  | .arr a => colonCountArr a
  | .obj o => colonCountObj o

/-- Colon count of a serialised JSON array. -/
def colonCountArr : JArr → Nat
  | .nil => 0
  | .cons v r => colonCount v + colonCountArr r

/-- Colon count of a serialised JSON object. -/
def colonCountObj : JObj → Nat
  | .nil => 0
  | .cons k v r => 1 + strColons k + colonCount v + colonCountObj r

end

/-- `_readDB` (lines 82-94) given the file's content.  With a truthy
password: no colon at all fails (`"Invalid file format"`); a well-formed
envelope is split at the first colon into `salt` and `iv:authTag:ciphertext`
and decrypted under the key derived from `salt` and the password; a
remainder that does not split into exactly three components fails
(`"Invalid encrypted text format"`); three components that are not a
genuine ciphertext fail GCM authentication.  Without a password the text is
`JSON.parse`d directly: any JSON value is returned as parsed (there is no
check that it is an array); non-JSON texts throw a `SyntaxError`. -/
def decode (cfg : Config) (fc : FileContent) : Except DBErr JVal :=
  match truthy cfg.password with
  | some p =>
      match fc with
      | .plain v =>
          if colonCount v = 0 then .error .format
          else if colonCount v = 3 then .error .auth
          else .error .format
      | .env salt iv tag ct =>
          decryptWithKey iv tag ct (deriveKey p salt cfg.iterations cfg.digest)
      | .garbageNoColon => .error .format
      | .badEnv _ n => if n = 3 then .error .auth else .error .format
  | none =>
      match fc with
      | .plain v => .ok v
      | _ => .error .format

/-- `_writeDB` (lines 97-109) with the fresh random `salt` and `iv` passed
in: with a truthy password, emit `salt:iv:authTag:ciphertext` under the key
derived from the fresh salt; otherwise emit the JSON serialisation. -/
def encode (cfg : Config) (salt : String) (iv : Nat) (v : JVal) : FileContent :=
  match truthy cfg.password with
  | none => .plain v
  | some p =>
      let key := deriveKey p salt cfg.iterations cfg.digest
      let e := encryptWithKey v key iv
      .env salt iv e.1 e.2

/-- A `JsonDB` instance together with its file: the mutable
`this.password` (inside `config`) and the db file's current content. -/
structure DB where
  config : Config
  file : FileContent
deriving DecidableEq

/-- `this._readDB()` on the instance. -/
def readDB (db : DB) : Except DBErr JVal := decode db.config db.file

/-- `this._writeDB(v)` on the instance, with the fresh randomness passed in. -/
def writeDB (db : DB) (salt : String) (iv : Nat) (v : JVal) : DB :=
  { db with file := encode db.config salt iv v }

/-- The assignment `this.password = p`. -/
def setPassword (db : DB) (p : Option String) : DB :=
  { db with config := { db.config with password := p } }

/-- `changePassword(payload)` (lines 153-170), with
`oldP = payload?.oldPassword`, `newP = payload?.newPassword` and the fresh
randomness of the re-encrypting write passed in.  Returns the error raised
(`none` on success) and the resulting instance+file state: switch to the
old password, try to read; on failure restore the saved password and abort
(`"Invalid old password. Password change aborted."`); on success adopt the
new password and rewrite the file. -/
def changePassword (db : DB) (oldP newP : Option String) (salt : String)
    (iv : Nat) : Option DBErr × DB :=
  match readDB (setPassword db oldP) with
  | .error _ => (some .auth, db)
  | .ok v => (none, writeDB (setPassword db newP) salt iv v)

/-- A document as the JSON object `JSON.parse` would yield for it. -/
def docObj : Doc → JObj
  | [] => .nil
  | (k, v) :: rest => .cons k v (docObj rest)

/-- A store as the JSON array of its documents. -/
def storeArr : Store → JArr
  | [] => .nil
  | d :: rest => .cons (.obj (docObj d)) (storeArr rest)

/-- A store as the top-level JSON value held in the db file. -/
def storeVal (s : Store) : JVal := .arr (storeArr s)

theorem truthy_some {p : String} (hp : p ≠ "") : truthy (some p) = some p := by
  simp [truthy, hp]

theorem decode_encode (cfg : Config) (salt : String) (iv : Nat) (v : JVal) :
    decode cfg (encode cfg salt iv v) = Except.ok v := by
  unfold decode encode
  cases truthy cfg.password with
  | none => rfl
  | some p => simp [decryptWithKey, encryptWithKey]

theorem docObj_inj : ∀ {d1 d2 : Doc}, docObj d1 = docObj d2 → d1 = d2
  | [], [], _ => rfl
  | [], (k, v) :: r, h => by simp [docObj] at h
  | (k, v) :: r, [], h => by simp [docObj] at h
  | (k1, v1) :: r1, (k2, v2) :: r2, h => by
      simp only [docObj, JObj.cons.injEq] at h
      obtain ⟨h1, h2, h3⟩ := h
      rw [h1, h2, docObj_inj h3]

theorem storeArr_inj : ∀ {s1 s2 : Store}, storeArr s1 = storeArr s2 → s1 = s2
  | [], [], _ => rfl
  | [], d :: r, h => by simp [storeArr] at h
  | d :: r, [], h => by simp [storeArr] at h
  | d1 :: r1, d2 :: r2, h => by
      simp only [storeArr, JArr.cons.injEq, JVal.obj.injEq] at h
      obtain ⟨h1, h2⟩ := h
      rw [docObj_inj h1, storeArr_inj h2]

theorem storeVal_inj {s1 s2 : Store} (h : storeVal s1 = storeVal s2) : s1 = s2 := by
  simp only [storeVal, JVal.arr.injEq] at h
  exact storeArr_inj h

theorem lookupField_append (a b : Doc) (k : String) :
    lookupField (a ++ b) k = (lookupField a k).or (lookupField b k) := by
  induction a with
  | nil => simp [lookupField]
  | cons kv rest ih =>
      obtain ⟨k2, v⟩ := kv
      by_cases hk : k2 = k <;> simp [lookupField, hk, ih]

theorem lookupField_map_override (d u : Doc) (k : String) :
    lookupField (d.map (fun kv => (kv.1, (lookupField u kv.1).getD kv.2))) k
      = (lookupField d k).map (fun v => (lookupField u k).getD v) := by
  induction d with
  | nil => simp [lookupField]
  | cons kv rest ih =>
      obtain ⟨k2, v⟩ := kv
      by_cases hk : k2 = k
      · subst hk
        simp [lookupField]
      · simp [lookupField, hk, ih]

theorem lookupField_filter_of_absent (d u : Doc) (k : String)
    (hd : lookupField d k = none) :
    lookupField (u.filter (fun kv => !(hasKey d kv.1))) k = lookupField u k := by
  induction u with
  | nil => simp [lookupField]
  | cons kv rest ih =>
      obtain ⟨k2, w⟩ := kv
      by_cases hk : k2 = k
      · subst hk
        have : hasKey d k2 = false := by simp [hasKey, hd]
        simp [List.filter, this, lookupField]
      · cases hdk : hasKey d k2 <;> simp [List.filter, hdk, lookupField, hk, ih]

theorem mergeDoc_lookup (d u : Doc) (k : String) :
    lookupField (mergeDoc d u) k = (lookupField u k).or (lookupField d k) := by
  unfold mergeDoc
  rw [lookupField_append, lookupField_map_override]
  cases hd : lookupField d k with
  | some v0 =>
      cases hu : lookupField u k <;> simp [hu]
  | none =>
      rw [lookupField_filter_of_absent d u k hd]
      cases hu : lookupField u k <;> simp [hu]

theorem docId_mergeDoc {u : Doc} (d : Doc) (hu : lookupField u "id" = none) :
    docId (mergeDoc d u) = docId d := by
  simp [docId, mergeDoc_lookup, hu]

theorem hasId_mergeDoc {u : Doc} (d : Doc) (i : Int)
    (hu : lookupField u "id" = none) : hasId (mergeDoc d u) i = hasId d i := by
  simp [hasId, docId_mergeDoc d hu]

theorem lookupField_setField (d : Doc) (k : String) (v : JVal) :
    lookupField (setField d k v) k = some v := by
  induction d with
  | nil => simp [setField, lookupField]
  | cons kv rest ih =>
      obtain ⟨k2, w⟩ := kv
      by_cases hk : k2 = k <;> simp [setField, hk, lookupField, ih]

theorem docId_insert (d : Doc) (n : Int) :
    docId (setField d "id" (JVal.num n)) = some (JVal.num n) :=
  lookupField_setField d "id" (JVal.num n)

theorem updateDocs_no_match (i : Int) (u : Doc) (l : Store)
    (h : ∀ d ∈ l, hasId d i = false) : updateDocs i u l = l := by
  unfold updateDocs
  have : ∀ d ∈ l, (if hasId d i then mergeDoc d u else d) = d := by
    intro d hd
    simp [h d hd]
  rw [List.map_congr_left this]
  exact List.map_id' l

theorem find?_append_of_none {α : Type} (p : α → Bool) (l1 l2 : List α)
    (h : ∀ x ∈ l1, p x = false) : (l1 ++ l2).find? p = l2.find? p := by
  induction l1 with
  | nil => simp
  | cons x rest ih =>
      have hx : p x = false := h x (by simp)
      simp only [List.cons_append, List.find?, hx]
      exact ih (fun y hy => h y (by simp [hy]))

theorem insertMany_map_docId (calls : List (Doc × Int)) (db : Store) :
    (insertMany calls db).map docId
      = db.map docId ++ calls.map (fun c => some (JVal.num c.2)) := by
  induction calls generalizing db with
  | nil => simp [insertMany]
  | cons c rest ih =>
      have : insertMany (c :: rest) db
          = insertMany rest (db ++ [setField c.1 "id" (JVal.num c.2)]) := rfl
      rw [this, ih]
      simp [docId_insert]

theorem decode_env {p : String} (hp : p ≠ "") (iters : Nat) (dig : String)
    (salt : String) (iv : Nat) (tag : GTag) (ct : GCt) :
    decode ⟨some p, iters, dig⟩ (FileContent.env salt iv tag ct)
      = decryptWithKey iv tag ct (deriveKey p salt iters dig) := by
  unfold decode
  rw [truthy_some hp]

theorem decryptWithKey_enc (k key : GKey) (i iv : Nat) (v : JVal)
    (tag : GTag) :
    decryptWithKey iv tag (GCt.enc k i v) key
      = if k = key ∧ i = iv ∧ tag = GTag.mk k i v then Except.ok v
        else Except.error DBErr.auth := rfl

theorem decryptWithKey_junk (key : GKey) (iv m : Nat) (tag : GTag) :
    decryptWithKey iv tag (GCt.junk m) key = Except.error DBErr.auth := rfl

theorem decryptWithKey_ok {iv : Nat} {tag : GTag} {ct : GCt} {key : GKey}
    {w : JVal} (h : decryptWithKey iv tag ct key = Except.ok w) :
    ct = GCt.enc key iv w ∧ tag = GTag.mk key iv w := by
  cases ct with
  | junk m => exact absurd h (by simp [decryptWithKey])
  | enc k i v =>
      rw [decryptWithKey_enc] at h
      by_cases hcond : k = key ∧ i = iv ∧ tag = GTag.mk k i v
      · obtain ⟨h1, h2, h3⟩ := hcond
        rw [if_pos ⟨h1, h2, h3⟩] at h
        have hv : v = w := by simpa using h
        subst h1
        subst h2
        subst hv
        exact ⟨rfl, h3⟩
      · rw [if_neg hcond] at h
        exact absurd h (by simp)

theorem fieldMatch_iff (d : Doc) (k : String) (x : JVal) :
    fieldMatch d k x = true
      ↔ ∃ w, lookupField d k = some w ∧ jsEq w x = true := by
  unfold fieldMatch
  cases hl : lookupField d k with
  | none => simp
  | some w => simp

theorem deleteRet_iff (i : Int) (db : Store) :
    deleteRet i db = true ↔ ∃ d ∈ db, hasId d i = true := by
  have hle : (db.filter (fun d => !(hasId d i))).length ≤ db.length :=
    db.length_filter_le _
  have hlt := @List.length_filter_lt_length_iff_exists Doc (fun d => !(hasId d i)) db
  unfold deleteRet deleteDocs
  simp only [decide_eq_true_eq]
  constructor
  · intro h
    have hl : (db.filter (fun d => !(hasId d i))).length < db.length := by omega
    obtain ⟨x, hx, hpx⟩ := hlt.mp hl
    exact ⟨x, hx, by simpa using hpx⟩
  · rintro ⟨x, hx, hpx⟩
    have hl : (db.filter (fun d => !(hasId d i))).length < db.length :=
      hlt.mpr ⟨x, hx, by simp [hpx]⟩
    omega

theorem delete_decomp (i : Int) (d : Doc) :
    ∀ db : Store, db.countP (fun x => hasId x i) ≤ 1 → hasId d i = true →
      d ∈ db →
      ∃ l1 l2, db = l1 ++ d :: l2 ∧ deleteDocs i db = l1 ++ l2
        ∧ (∀ d2 ∈ l1, hasId d2 i = false) ∧ (∀ d2 ∈ l2, hasId d2 i = false)
  | [], _, _, hmem => absurd hmem (List.not_mem_nil d)
  | x :: rest, hcount, hd, hmem => by
      cases hx : hasId x i with
      | true =>
          have hrest : ∀ d2 ∈ rest, hasId d2 i = false := by
            rw [List.countP_cons] at hcount
            simp only [hx, if_pos] at hcount
            have h0 : rest.countP (fun y => hasId y i) = 0 := by omega
            intro d2 hd2
            have := List.countP_eq_zero.mp h0 d2 hd2
            simpa using this
          have hdx : d = x := by
            rcases List.mem_cons.mp hmem with h | h
            · exact h
            · exact absurd hd (by simp [hrest d h])
          subst hdx
          refine ⟨[], rest, by simp, ?_, by simp, hrest⟩
          unfold deleteDocs
          rw [List.filter_cons]
          simp only [hx, Bool.not_true, if_neg Bool.false_ne_true]
          exact List.filter_eq_self.mpr (fun a ha => by simp [hrest a ha])
      | false =>
          have hmem2 : d ∈ rest := by
            rcases List.mem_cons.mp hmem with h | h
            · subst h; rw [hd] at hx; exact absurd hx (by simp)
            · exact h
          have hcount2 : rest.countP (fun y => hasId y i) ≤ 1 := by
            rw [List.countP_cons] at hcount
            omega
          obtain ⟨l1, l2, hsplit, hdel, hall1, hall2⟩ :=
            delete_decomp i d rest hcount2 hd hmem2
          refine ⟨x :: l1, l2, by simp [hsplit], ?_, ?_, hall2⟩
          · unfold deleteDocs
            rw [List.filter_cons]
            simp only [hx, Bool.not_false, if_pos]
            rw [List.cons_append]
            congr 1
          · intro d2 hd2
            rcases List.mem_cons.mp hd2 with h | h
            · subst h; exact hx
            · exact hall1 d2 h

/-- C2: for every store `S` and configuration (password present or not) and
all fresh randomness, decoding the envelope produced by encoding `S` yields
exactly the serialised store back, and any store whose serialisation equals
it is `S` itself (structural equality, order preserved). -/
theorem encode_decode_roundtrip (S : Store) (cfg : Config) (salt : String)
    (iv : Nat) :
    decode cfg (encode cfg salt iv (storeVal S)) = Except.ok (storeVal S)
    ∧ ∀ T : Store, storeVal T = storeVal S → T = S :=
  ⟨decode_encode cfg salt iv (storeVal S), fun _ h => storeVal_inj h⟩

theorem encode_decode_roundtrip_witness :
    decode ⟨some "pw", 100000, "sha256"⟩
        (encode ⟨some "pw", 100000, "sha256"⟩ "salt" 7
          (storeVal [[("id", JVal.num 1)]]))
      = Except.ok (storeVal [[("id", JVal.num 1)]]) :=
  (encode_decode_roundtrip [[("id", JVal.num 1)]]
    ⟨some "pw", 100000, "sha256"⟩ "salt" 7).1

/-- C1: `changePassword` is all-or-nothing.  If reading the file under the
supplied old password fails, the call errors (the spec's
`AuthenticationError`), the instance state — including the active password
— is exactly what it was, the file is untouched, and a subsequent read
under the original configuration still yields the original store; only when
the read succeeds is the new password adopted and the store re-encoded and
persisted under it. -/
theorem changePassword_all_or_nothing
    (db : DB) (oldP newP : Option String) (salt : String) (iv : Nat)
    (salt0 : String) (iv0 : Nat) (S : Store)
    (hfile : db.file = encode db.config salt0 iv0 (storeVal S)) :
    (∀ e, readDB (setPassword db oldP) = Except.error e →
        changePassword db oldP newP salt iv = (some DBErr.auth, db)
        ∧ (changePassword db oldP newP salt iv).2.file = db.file
        ∧ (changePassword db oldP newP salt iv).2.config = db.config
        ∧ readDB (changePassword db oldP newP salt iv).2
            = Except.ok (storeVal S))
    ∧ (∀ v, readDB (setPassword db oldP) = Except.ok v →
        changePassword db oldP newP salt iv
          = (none, writeDB (setPassword db newP) salt iv v)) := by
  constructor
  · intro e he
    have h1 : changePassword db oldP newP salt iv = (some DBErr.auth, db) := by
      unfold changePassword
      rw [he]
    refine ⟨h1, by rw [h1], by rw [h1], ?_⟩
    rw [h1]
    show readDB db = Except.ok (storeVal S)
    unfold readDB
    rw [hfile]
    exact decode_encode _ _ _ _
  · intro v hv
    unfold changePassword
    rw [hv]

theorem changePassword_all_or_nothing_witness :
    changePassword
        ⟨⟨some "old", 1000, "sha256"⟩,
          encode ⟨some "old", 1000, "sha256"⟩ "s0" 3
            (storeVal [[("id", JVal.num 1)]])⟩
        (some "wrong") (some "new") "s1" 4
      = (some DBErr.auth,
          ⟨⟨some "old", 1000, "sha256"⟩,
            encode ⟨some "old", 1000, "sha256"⟩ "s0" 3
              (storeVal [[("id", JVal.num 1)]])⟩) :=
  ((changePassword_all_or_nothing
      ⟨⟨some "old", 1000, "sha256"⟩,
        encode ⟨some "old", 1000, "sha256"⟩ "s0" 3
          (storeVal [[("id", JVal.num 1)]])⟩
      (some "wrong") (some "new") "s1" 4 "s0" 3 [[("id", JVal.num 1)]]
      rfl).1 DBErr.auth rfl).1

/-- C10: `changePassword` validates nothing about its payload.  Whenever
the old password decodes the current file, the call succeeds and
unconditionally installs `newPassword` as the active password — including
`newPassword` absent/undefined (`none`), in which case the instance
silently switches to unencrypted mode: the rotation's own write already
stores the documents as plaintext, and so does every later write. -/
theorem changePassword_no_validation
    (db : DB) (oldP newP : Option String) (salt : String) (iv : Nat)
    (v : JVal) (hok : readDB (setPassword db oldP) = Except.ok v) :
    (changePassword db oldP newP salt iv).1 = none
    ∧ (changePassword db oldP newP salt iv).2.config.password = newP
    ∧ (newP = none →
        (changePassword db oldP newP salt iv).2.file = FileContent.plain v)
    ∧ (∀ salt2 iv2 w, newP = none →
        (writeDB (changePassword db oldP newP salt iv).2 salt2 iv2 w).file
          = FileContent.plain w) := by
  have h : changePassword db oldP newP salt iv
      = (none, writeDB (setPassword db newP) salt iv v) := by
    unfold changePassword
    rw [hok]
  rw [h]
  refine ⟨rfl, rfl, ?_, ?_⟩
  · intro hn
    subst hn
    rfl
  · intro salt2 iv2 w hn
    subst hn
    rfl

theorem changePassword_no_validation_witness :
    (changePassword
        ⟨⟨some "old", 1000, "sha256"⟩,
          encode ⟨some "old", 1000, "sha256"⟩ "s0" 3
            (storeVal [[("id", JVal.num 1)]])⟩
        (some "old") none "s1" 4).2.file
      = FileContent.plain (storeVal [[("id", JVal.num 1)]]) :=
  (changePassword_no_validation
      ⟨⟨some "old", 1000, "sha256"⟩,
        encode ⟨some "old", 1000, "sha256"⟩ "s0" 3
          (storeVal [[("id", JVal.num 1)]])⟩
      (some "old") none "s1" 4 (storeVal [[("id", JVal.num 1)]])
      rfl).2.2.1 rfl

/-- C5: authenticated decryption fails closed.  On a genuine envelope for
plaintext `v` under password `p`: decoding under any other password `p2`
fails with an authentication error; so does decoding after the `authTag`
component alone, or the `ciphertext` component alone, has been altered in
any way; and whenever decoding an envelope succeeds, the returned value is
exactly the plaintext of a genuinely matching tag/ciphertext pair — never
partial or garbage data. -/
theorem decrypt_fails_closed
    (p p2 salt : String) (iters : Nat) (dig : String) (iv : Nat) (v : JVal)
    (hp : p ≠ "") (hp2 : p2 ≠ "") (hne : p2 ≠ p) :
    (decode ⟨some p2, iters, dig⟩
        (FileContent.env salt iv (GTag.mk (deriveKey p salt iters dig) iv v)
          (GCt.enc (deriveKey p salt iters dig) iv v))
      = Except.error DBErr.auth)
    ∧ (∀ tag2, tag2 ≠ GTag.mk (deriveKey p salt iters dig) iv v →
        decode ⟨some p, iters, dig⟩
          (FileContent.env salt iv tag2
            (GCt.enc (deriveKey p salt iters dig) iv v))
          = Except.error DBErr.auth)
    ∧ (∀ ct2, ct2 ≠ GCt.enc (deriveKey p salt iters dig) iv v →
        decode ⟨some p, iters, dig⟩
          (FileContent.env salt iv (GTag.mk (deriveKey p salt iters dig) iv v)
            ct2)
          = Except.error DBErr.auth)
    ∧ (∀ tag2 ct2 w,
        decode ⟨some p, iters, dig⟩ (FileContent.env salt iv tag2 ct2)
            = Except.ok w →
        ct2 = GCt.enc (deriveKey p salt iters dig) iv w
          ∧ tag2 = GTag.mk (deriveKey p salt iters dig) iv w) := by
  refine ⟨?_, ?_, ?_, ?_⟩
  · rw [decode_env hp2, decryptWithKey_enc, if_neg]
    rintro ⟨h1, -, -⟩
    simp only [deriveKey, GKey.mk.injEq] at h1
    exact hne h1.1.symm
  · intro tag2 ht
    rw [decode_env hp, decryptWithKey_enc, if_neg]
    rintro ⟨-, -, h3⟩
    exact ht h3
  · intro ct2 hc
    cases ct2 with
    | junk m => rw [decode_env hp, decryptWithKey_junk]
    | enc k2 i2 v2 =>
        rw [decode_env hp, decryptWithKey_enc, if_neg]
        rintro ⟨h1, h2, h3⟩
        simp only [GTag.mk.injEq] at h3
        exact hc (by rw [h1, h2, h3.2.2])
  · intro tag2 ct2 w hok
    rw [decode_env hp] at hok
    exact decryptWithKey_ok hok

theorem decrypt_fails_closed_witness :
    (decode ⟨some "wrong", 100000, "sha256"⟩
        (FileContent.env "s" 7
          (GTag.mk (deriveKey "old" "s" 100000 "sha256") 7 (storeVal []))
          (GCt.enc (deriveKey "old" "s" 100000 "sha256") 7 (storeVal [])))
      = Except.error DBErr.auth)
    ∧ (decode ⟨some "old", 100000, "sha256"⟩
        (FileContent.env "s" 7 (GTag.junk 0)
          (GCt.enc (deriveKey "old" "s" 100000 "sha256") 7 (storeVal [])))
      = Except.error DBErr.auth)
    ∧ (decode ⟨some "old", 100000, "sha256"⟩
        (FileContent.env "s" 7
          (GTag.mk (deriveKey "old" "s" 100000 "sha256") 7 (storeVal []))
          (GCt.junk 0))
      = Except.error DBErr.auth) :=
  ⟨(decrypt_fails_closed "old" "wrong" "s" 100000 "sha256" 7 (storeVal [])
      (by decide) (by decide) (by decide)).1,
   (decrypt_fails_closed "old" "wrong" "s" 100000 "sha256" 7 (storeVal [])
      (by decide) (by decide) (by decide)).2.1 (GTag.junk 0) (by decide),
   (decrypt_fails_closed "old" "wrong" "s" 100000 "sha256" 7 (storeVal [])
      (by decide) (by decide) (by decide)).2.2.1 (GCt.junk 0) (by decide)⟩

/-- C9 counterexample: with no password configured, a file whose content is
valid JSON but not an array (here the object `{}`) does NOT make decode
fail with a `FormatError` — `_readDB` returns the parsed non-array value
as-is, contradicting the claim's "fails with a FormatError ... [for] valid
JSON but not an array". -/
theorem decode_nonarray_cex :
    decode ⟨none, 100000, "sha256"⟩ (FileContent.plain (JVal.obj JObj.nil))
      = Except.ok (JVal.obj JObj.nil)
    ∧ (Except.ok (JVal.obj JObj.nil) : Except DBErr JVal)
        ≠ Except.error DBErr.format := by
  exact ⟨rfl, by simp⟩

/-- C9 (amended): with no password, decode fails with a `FormatError` on
every non-JSON content (colon-free garbage, an envelope, a malformed
envelope), but content that is valid JSON — array or not — is returned as
parsed, without any array check; with a password, decode fails with a
`FormatError` when the content contains no separator, and when the part
after the first separator does not split into exactly three colon-separated
components. -/
theorem decode_shape_errors (cfg : Config) (v : JVal) (salt : String)
    (n iv : Nat) (p : String) (tag : GTag) (ct : GCt) (hp : p ≠ "") :
    (cfg.password = none →
        decode cfg FileContent.garbageNoColon = Except.error DBErr.format
        ∧ decode cfg (FileContent.env salt iv tag ct)
            = Except.error DBErr.format
        ∧ decode cfg (FileContent.badEnv salt n) = Except.error DBErr.format
        ∧ decode cfg (FileContent.plain v) = Except.ok v)
    ∧ (∀ cfg2 : Config, cfg2.password = some p →
        decode cfg2 FileContent.garbageNoColon = Except.error DBErr.format
        ∧ (colonCount v = 0 →
            decode cfg2 (FileContent.plain v) = Except.error DBErr.format)
        ∧ (n ≠ 3 →
            decode cfg2 (FileContent.badEnv salt n)
              = Except.error DBErr.format)) := by
  constructor
  · intro h
    unfold decode
    rw [h]
    exact ⟨rfl, rfl, rfl, rfl⟩
  · intro cfg2 h2
    unfold decode
    rw [h2, truthy_some hp]
    refine ⟨rfl, ?_, ?_⟩
    · intro hc
      simp [hc]
    · intro hn
      simp [hn]

theorem decode_shape_errors_witness :
    decode ⟨none, 100000, "sha256"⟩ FileContent.garbageNoColon
        = Except.error DBErr.format
    ∧ decode ⟨some "pw", 100000, "sha256"⟩ (FileContent.badEnv "s" 2)
        = Except.error DBErr.format :=
  ⟨((decode_shape_errors ⟨none, 100000, "sha256"⟩ JVal.null "s" 2 0 "pw"
      (GTag.junk 0) (GCt.junk 0) (by decide)).1 rfl).1,
   ((decode_shape_errors ⟨some "pw", 100000, "sha256"⟩ JVal.null "s" 2 0 "pw"
      (GTag.junk 0) (GCt.junk 0) (by decide)).2 ⟨some "pw", 100000, "sha256"⟩
      rfl).2.2 (by decide)⟩

/-- C6: `find` with the empty query returns the whole store; in general it
returns, in store order, exactly the documents for which every query field
is present and strictly equal (`===`) to the document's corresponding
field; a document lacking a queried field never matches. -/
theorem find_correct (q : Doc) (db : Store) :
    findDocs [] db = db
    ∧ List.Sublist (findDocs q db) db
    ∧ (∀ d : Doc, matchesQuery q d = true
        ↔ ∀ kv ∈ q, ∃ w, lookupField d kv.1 = some w ∧ jsEq w kv.2 = true)
    ∧ (∀ d : Doc, d ∈ findDocs q db ↔ d ∈ db ∧ matchesQuery q d = true)
    ∧ (∀ d ∈ db, (∃ kv ∈ q, lookupField d kv.1 = none) →
        d ∉ findDocs q db) := by
  refine ⟨?_, List.filter_sublist db, ?_, ?_, ?_⟩
  · unfold findDocs
    exact List.filter_eq_self.mpr (fun d _ => rfl)
  · intro d
    unfold matchesQuery
    rw [List.all_eq_true]
    constructor
    · intro h kv hkv
      exact (fieldMatch_iff d kv.1 kv.2).mp (h kv hkv)
    · intro h kv hkv
      exact (fieldMatch_iff d kv.1 kv.2).mpr (h kv hkv)
  · intro d
    unfold findDocs
    exact List.mem_filter
  · rintro d hd ⟨kv, hkv, hnone⟩ hmem
    have h4 : matchesQuery q d = true := (List.mem_filter.mp hmem).2
    simp only [matchesQuery, List.all_eq_true] at h4
    obtain ⟨w, hw, -⟩ := (fieldMatch_iff d kv.1 kv.2).mp (h4 kv hkv)
    rw [hnone] at hw
    exact Option.noConfusion hw

theorem find_correct_witness :
    findDocs [] [[("id", JVal.num 1)]] = [[("id", JVal.num 1)]] :=
  (find_correct [("name", JVal.str "Alice")] [[("id", JVal.num 1)]]).1

/-- C7: `delete` returns `true` iff some stored document has the id;
deleting a non-existent id returns `false` and leaves the store unchanged;
under the store invariant (at most one document per id), deleting an
existing id returns `true` and removes exactly that one document, leaving
all others unchanged in order. -/
theorem delete_correct (i : Int) (db : Store)
    (hu : db.countP (fun d => hasId d i) ≤ 1) :
    (deleteRet i db = true ↔ ∃ d ∈ db, hasId d i = true)
    ∧ ((∀ d ∈ db, hasId d i = false) →
        deleteDocs i db = db ∧ deleteRet i db = false)
    ∧ (∀ d ∈ db, hasId d i = true →
        deleteRet i db = true
        ∧ ∃ l1 l2, db = l1 ++ d :: l2 ∧ deleteDocs i db = l1 ++ l2
            ∧ (∀ d2 ∈ l1, hasId d2 i = false)
            ∧ (∀ d2 ∈ l2, hasId d2 i = false)) := by
  refine ⟨deleteRet_iff i db, ?_, ?_⟩
  · intro h
    have h1 : deleteDocs i db = db := by
      unfold deleteDocs
      exact List.filter_eq_self.mpr (fun a ha => by simp [h a ha])
    refine ⟨h1, ?_⟩
    unfold deleteRet
    rw [h1]
    simp
  · intro d hd hid
    exact ⟨(deleteRet_iff i db).mpr ⟨d, hd, hid⟩,
      delete_decomp i d db hu hid hd⟩

theorem delete_correct_witness :
    (List.countP (fun d => hasId d 1)
        [[("id", JVal.num 1)], [("id", JVal.num 2)]] ≤ 1)
    ∧ (deleteRet 1 [[("id", JVal.num 1)], [("id", JVal.num 2)]] = true
        ↔ ∃ d ∈ [[("id", JVal.num 1)], [("id", JVal.num 2)]],
            hasId d 1 = true) :=
  ⟨by decide,
   (delete_correct 1 [[("id", JVal.num 1)], [("id", JVal.num 2)]]
      (by decide)).1⟩

/-- C3 counterexample: `update(1, {id: 2})` on the store `[{id: 1}]`
rewrites the selected document's id to 2 — the spread `{...doc, ...updates}`
lets the `id` in `updates` win, so the document does NOT keep its original
id. -/
theorem update_id_cex :
    updateDocs 1 [("id", JVal.num 2)] [[("id", JVal.num 1)]]
      = [[("id", JVal.num 2)]]
    ∧ docId [("id", JVal.num 2)] ≠ some (JVal.num 1) := by
  decide

/-- C3 (amended): `update` preserves every document's id exactly when the
`updates` payload contains no `id` field; when `updates` does contain `id`,
its value overwrites the selected document's id (see the counterexample). -/
theorem update_id_preserved (i : Int) (u : Doc) (db : Store)
    (hu : lookupField u "id" = none) :
    (updateDocs i u db).map docId = db.map docId := by
  unfold updateDocs
  rw [List.map_map]
  apply List.map_congr_left
  intro d _
  by_cases h : hasId d i
  · simp [Function.comp, h, docId_mergeDoc d hu]
  · simp [Function.comp, h]

theorem update_id_preserved_witness :
    (updateDocs 1 [("a", JVal.num 9)] [[("id", JVal.num 1)]]).map docId
      = [[("id", JVal.num 1)]].map docId :=
  update_id_preserved 1 [("a", JVal.num 9)] [[("id", JVal.num 1)]]
    (by decide)

/-- C8 counterexample: on a store containing a document with id 1, the call
`update(1, {id: 2})` does not return the resulting merged document: the
merge rewrites the id to 2, so the final `db.find((doc) => doc.id === id)`
finds nothing and `update` returns `undefined`. -/
theorem update_return_cex :
    hasId [("id", JVal.num 1), ("a", JVal.num 0)] 1 = true
    ∧ updateRet 1 [("id", JVal.num 2)]
        [[("id", JVal.num 1), ("a", JVal.num 0)]] = none := by
  decide

/-- C8 (amended): under the store invariant (one document per id) and
provided `updates` does not name `id`, `update` replaces exactly the fields
named in `updates`, preserves every other field of the selected document,
leaves every other document unchanged in order, and returns the merged
document; when no document has the id it leaves the store unchanged and
returns `undefined`. -/
theorem update_merge_frame
    (i : Int) (u : Doc) (l1 l2 : List Doc) (d : Doc)
    (hd : hasId d i = true)
    (hl1 : ∀ d2 ∈ l1, hasId d2 i = false)
    (hl2 : ∀ d2 ∈ l2, hasId d2 i = false)
    (hu : lookupField u "id" = none) :
    updateDocs i u (l1 ++ d :: l2) = l1 ++ mergeDoc d u :: l2
    ∧ updateRet i u (l1 ++ d :: l2) = some (mergeDoc d u)
    ∧ (∀ k, lookupField (mergeDoc d u) k
        = (lookupField u k).or (lookupField d k))
    ∧ (∀ db : Store, (∀ d2 ∈ db, hasId d2 i = false) →
        updateDocs i u db = db ∧ updateRet i u db = none) := by
  have hmap1 : updateDocs i u l1 = l1 := updateDocs_no_match i u l1 hl1
  have hmap2 : updateDocs i u l2 = l2 := updateDocs_no_match i u l2 hl2
  have h1 : updateDocs i u (l1 ++ d :: l2) = l1 ++ mergeDoc d u :: l2 := by
    unfold updateDocs
    rw [List.map_append, List.map_cons, hd]
    simp only [if_true]
    unfold updateDocs at hmap1 hmap2
    rw [hmap1, hmap2]
  refine ⟨h1, ?_, mergeDoc_lookup d u, ?_⟩
  · unfold updateRet
    rw [h1, find?_append_of_none _ l1 _ hl1]
    exact List.find?_cons_of_pos _ (by rw [hasId_mergeDoc d i hu, hd])
  · intro db h
    have h2 : updateDocs i u db = db := updateDocs_no_match i u db h
    refine ⟨h2, ?_⟩
    unfold updateRet
    rw [h2]
    exact List.find?_eq_none.mpr (fun x hx => by simp [h x hx])

theorem update_merge_frame_witness :
    updateRet 1 [("a", JVal.num 1)]
        [[("id", JVal.num 1), ("a", JVal.num 0), ("b", JVal.num 2)]]
      = some [("id", JVal.num 1), ("a", JVal.num 1), ("b", JVal.num 2)] := by
  have h := (update_merge_frame 1 [("a", JVal.num 1)] [] []
      [("id", JVal.num 1), ("a", JVal.num 0), ("b", JVal.num 2)]
      (by decide) (by simp) (by simp) (by decide)).2.1
  exact h

/-- C4 counterexample: two sequential inserts whose `Date.now()` readings
coincide (both 5) assign the same id — the resulting store holds two
documents sharing id 5, so the assigned ids are not pairwise distinct. -/
theorem insert_collision_cex :
    (insertMany [([], 5), ([], 5)] []).map docId
      = [some (JVal.num 5), some (JVal.num 5)]
    ∧ ¬ ((insertMany [([], 5), ([], 5)] []).map docId).Nodup := by
  decide

/-- C4 (amended): provided the `Date.now()` readings of the N sequential
inserts are pairwise distinct and none equals an id already present in the
(no-duplicate-id) initial store, the assigned ids are exactly the readings,
pairwise distinct, and the resulting store has no two documents sharing an
id. -/
theorem insert_unique_ids (calls : List (Doc × Int)) (db : Store)
    (h0 : (db.map docId).Nodup)
    (h1 : (calls.map Prod.snd).Nodup)
    (h2 : ∀ c ∈ calls, some (JVal.num c.2) ∉ db.map docId) :
    (insertMany calls db).map docId
      = db.map docId ++ calls.map (fun c => some (JVal.num c.2))
    ∧ (calls.map (fun c => some (JVal.num c.2))).Nodup
    ∧ ((insertMany calls db).map docId).Nodup := by
  have heq := insertMany_map_docId calls db
  have hinj : Function.Injective (fun n : Int => some (JVal.num n)) := by
    intro a b h
    simpa using h
  have hmap : calls.map (fun c => some (JVal.num c.2))
      = (calls.map Prod.snd).map (fun n => some (JVal.num n)) := by
    rw [List.map_map]
    rfl
  have hnd2 : (calls.map (fun c => some (JVal.num c.2))).Nodup := by
    rw [hmap]
    exact h1.map hinj
  refine ⟨heq, hnd2, ?_⟩
  rw [heq, List.nodup_append]
  refine ⟨h0, hnd2, ?_⟩
  intro a ha hb
  obtain ⟨c, hc, hce⟩ := List.mem_map.mp hb
  rw [← hce] at ha
  exact h2 c hc ha

theorem insert_unique_ids_witness :
    ((insertMany [([], 1), ([], 2)] []).map docId).Nodup :=
  (insert_unique_ids [([], 1), ([], 2)] [] (by decide) (by decide)
    (by decide)).2.2

end JsonDB
